import Mathlib

/-!
Verification of the 8-bit music maker's analysis core.

This file gives a shallow embedding, over exact rational arithmetic, of the
two algorithmic source files of the repository:

* `advanced_audio_analyzer.py` — frequency quantization
  (`snap_to_pentatonic`), exact key lookup (`frequency_to_key`), the
  frame-to-note segmentation loop of `analyze_audio_file`, the merge pass
  (`merge_consecutive_notes`) and the guarded progress writer
  (`update_progress`);
* `advanced_api.py` — the per-job progress store, the background worker
  `run_analysis` with its `try/except/finally` structure, and the SSE
  generator `generate_progress`.

Floating point values are modelled as rationals (the decimal literals of the
source are exact decimals here).  Python's `librosa.hz_to_midi` based
semitone distance `|midi x - midi t| = 12*|log2 (x/t)|` is replaced by its
image under the strictly monotone map `d => 2^(d/12)`, namely
`max (x/t) (t/x)`; since the code only ever *compares* semitone distances
(argmin searches and a `< 0.5` test), this transformation preserves the
behaviour exactly while staying computable over `ℚ`.
-/

attribute [local semireducible] Rat.mul Rat.add Rat.sub Rat.inv

set_option maxRecDepth 100000

namespace MusicMaker

/-! ## FrequencyQuantizer (advanced_audio_analyzer.py lines 27-43, 110-138) -/

/-- The `freq_to_key_map` table of `AdvancedAudioAnalyzer.__init__`:
24 (frequency-Hz, key-symbol) pairs, in the source's insertion order
(which is ascending in frequency). -/
def freqToKeyMap : List (ℚ × Char) :=
  [(6541/100, '1'), (7342/100, '2'), (8241/100, '3'), (8731/100, '4'), (98, '5'),
   (110, '6'), (12347/100, '7'), (13081/100, 'a'), (14683/100, 's'), (16481/100, 'd'),
   (17461/100, 'f'), (196, 'g'), (220, 'h'), (24694/100, 'j'), (26163/100, 'k'),
   (29366/100, 'l'), (32963/100, 'z'), (34923/100, 'x'), (392, 'c'), (440, 'v'),
   (49388/100, 'b'), (52325/100, 'n'), (58733/100, 'm'), (65925/100, 'p')]

/-- `pentatonic_freqs`: the 13 C-major pentatonic frequencies used as the
intermediate quantization target. -/
def pentatonicFreqs : List ℚ :=
  [13081/100, 14683/100, 16481/100, 196, 220,
   26163/100, 29366/100, 32963/100, 392, 440,
   52325/100, 58733/100, 65925/100]

/-- `available_frequencies = sorted(freq_to_key_map.keys())`.  The insertion
order of the table is already ascending, so sorting is the identity and the
list is the first projection of the table (see
`availableFrequencies_ascending`). -/
def availableFrequencies : List ℚ := freqToKeyMap.map Prod.fst

/-- The image of the semitone distance `|hz_to_midi x - hz_to_midi t|` under
the strictly monotone map `d => 2^(d/12)`.  For positive `x`, `t` this equals
`2 ^ (|12 * log2 (x/t)| / 12) = max (x/t) (t/x)`, so comparing `ratioDist`
values compares semitone distances. -/
def ratioDist (x t : ℚ) : ℚ := max (x / t) (t / x)

/-- Python's `min(x :: xs, key = key)`: the first element attaining the
minimal key (later elements replace the accumulator only on strictly
smaller key). -/
def listMinBy (key : ℚ → ℚ) : List ℚ → ℚ
  | [] => 0
  | x :: xs => xs.foldl (fun b a => if key a < key b then a else b) x

/-- `AdvancedAudioAnalyzer.snap_to_pentatonic`: return 0 for non-positive
input (the `not np.isfinite` disjunct has no rational counterpart); clamp to
[20, 8000]; snap to the nearest pentatonic member by semitone distance, then
snap that to the nearest `available_frequencies` member.  The `except`
fallback branch is unreachable under exact arithmetic and is not modelled. -/
def snap_to_pentatonic (frequency : ℚ) : ℚ :=
  if frequency ≤ 0 then 0
  else
    let clamped := max 20 (min frequency 8000)
    let pentatonicFreq := listMinBy (fun x => ratioDist x clamped) pentatonicFreqs
    listMinBy (fun x => ratioDist x pentatonicFreq) availableFrequencies

/-- `AdvancedAudioAnalyzer.frequency_to_key`: exact-match lookup in
`freq_to_key_map` with `' '` as default; 0 maps to `' '`. -/
def frequency_to_key (frequency : ℚ) : Char :=
  if frequency = 0 then ' '
  else ((freqToKeyMap.find? (fun kv => decide (kv.1 = frequency))).map Prod.snd).getD ' '

/-! ## Notes and the merge pass (advanced_audio_analyzer.py lines 140-166) -/

/-- One element of the output `sequence`: the dict
`{key, frequency, duration, start_time}` built by the segmentation loop. -/
structure Note where
  key : Char
  frequency : ℚ
  duration : ℚ
  start_time : ℚ
deriving DecidableEq

/-- The merge condition of `merge_consecutive_notes`: identical key,
identical frequency, and `time_gap ≤ threshold_frames * 0.008` where
`time_gap = next.start_time - (current.start_time + current.duration)`. -/
def mergeableB (thresholdFrames : ℚ) (c n : Note) : Bool :=
  c.key == n.key && c.frequency == n.frequency &&
    decide (n.start_time - (c.start_time + c.duration) ≤ thresholdFrames * (8/1000))

/-- The scan of `merge_consecutive_notes`: `current` is the note being
accumulated; a mergeable successor extends its duration by
`next.duration + time_gap`, otherwise `current` is emitted and the
successor becomes the new `current`; the final `current` is emitted at the
end. -/
def mergeLoop (th : ℚ) (current : Note) : List Note → List Note
  | [] => [current]
  | n :: ns =>
    if mergeableB th current n then
      mergeLoop th
        { current with duration :=
            current.duration + n.duration + (n.start_time - (current.start_time + current.duration)) }
        ns
    else current :: mergeLoop th n ns

/-- `AdvancedAudioAnalyzer.merge_consecutive_notes` (the analysis pipeline
calls it with the default `threshold_frames = 1`). -/
def merge_consecutive_notes (th : ℚ) (sequence : List Note) : List Note :=
  match sequence with
  | [] => []
  | x :: xs => mergeLoop th x xs

/-! ## NoteSegmenter (advanced_audio_analyzer.py lines 280-332, 347-486)

The frame loop of `analyze_audio_file`, as a pure fold over the frame list.
Three pieces of the source are deliberately outside the pure model: the
wall-clock timeout valve (real time; it cannot fire in a timeless model),
the per-frame `except` counter (no exception can arise under exact
arithmetic), and the periodic progress messages (they do not touch the
segmentation state).  The `if len(sequence) > 0` guard before the
silence-gap insertion is dropped because it sits directly after an
unconditional append and is therefore always true. -/

/-- One input sample: `(times[i], f0_smoothed[i], voiced_probs[i])`. -/
structure Frame where
  time : ℚ
  freq : ℚ
  conf : ℚ
deriving DecidableEq

/-- `hop_length = 128` (samples). -/
def hopLength : ℚ := 128

/-- `sr = 44100` Hz (the load call forces this rate). -/
def sampleRate : ℚ := 44100

/-- The `voiced_probs[i] > 0.01` confidence threshold. -/
def confidenceThreshold : ℚ := 1/100

/-- `min_note_duration_beats = 0.125`. -/
def minNoteDurationBeats : ℚ := 1/8

/-- Python's built-in `round`: round half to even. -/
def pyRound (q : ℚ) : ℤ :=
  let n := ⌊q⌋
  let r := q - (n : ℚ)
  if r < 1/2 then n
  else if 1/2 < r then n + 1
  else if n % 2 = 0 then n else n + 1

/-- `min_note_duration_sec = 60.0 / tempo * min_note_duration_beats`. -/
def minNoteDurationSec (tempo : ℚ) : ℚ := 60 / tempo * minNoteDurationBeats

/-- `min_frames = max(1, int(min_note_duration_sec * sr / hop_length))`
(`int` truncation on a non-negative value is the floor). -/
def minFrames (tempo : ℚ) : ℕ :=
  max 1 (Int.toNat ⌊minNoteDurationSec tempo * sampleRate / hopLength⌋)

/-- The `midi_diff < 0.5` same-note test.  `|hz_to_midi q - hz_to_midi c| <
0.5` iff `max (q/c) (c/q) < 2^(1/24)` iff (both sides positive)
`(max (q/c) (c/q))^24 < 2`. -/
def isSameNoteB (q c : ℚ) : Bool := decide ((max (q / c) (c / q)) ^ 24 < 2)

/-- The note dict appended when a pending note is flushed:
`duration_sec = count * hop_length / sr`,
`duration_beats = round(duration_sec * tempo / 60 * 4) / 4`,
`key = frequency_to_key(current_freq)`. -/
def flushedNote (tempo c startT : ℚ) (count : ℕ) : Note :=
  { key := frequency_to_key c,
    frequency := c,
    duration := (pyRound ((count : ℚ) * hopLength / sampleRate * tempo / 60 * 4) : ℚ) / 4,
    start_time := startT }

/-- The loop state: `current_freq` (`none` = Python `None`),
`current_start_time`, `current_frame_count`, and the accumulated
`sequence`. -/
structure SegState where
  current : Option ℚ
  startTime : ℚ
  count : ℕ
  seq : List Note
deriving DecidableEq

/-- One iteration of the frame loop of `analyze_audio_file`. -/
def segStep (tempo : ℚ) (mf : ℕ) (mSec : ℚ) (st : SegState) (fr : Frame) : SegState :=
  if 0 < fr.freq ∧ confidenceThreshold < fr.conf then
    let q := snap_to_pentatonic fr.freq
    let same : Bool :=
      match st.current with
      | some c => decide (0 < q) && isSameNoteB q c
      | none => false
    if same then { st with count := st.count + 1 }
    else
      let seq1 :=
        match st.current with
        | some c =>
          if mf ≤ st.count then st.seq ++ [flushedNote tempo c st.startTime st.count]
          else st.seq
        | none => st.seq
      { current := some q, startTime := fr.time, count := 1, seq := seq1 }
  else
    match st.current with
    | some c =>
      if mf ≤ st.count then
        let durationSec := (st.count : ℚ) * hopLength / sampleRate
        let seq1 := st.seq ++ [flushedNote tempo c st.startTime st.count]
        let gapSec := fr.time - (st.startTime + durationSec)
        let seq2 :=
          if mSec < gapSec then
            let gapBeats : ℚ := (pyRound (gapSec * tempo / 60 * 4) : ℚ) / 4
            if (1/4 : ℚ) ≤ gapBeats then
              seq1 ++ [{ key := ' ', frequency := 0, duration := gapBeats,
                         start_time := st.startTime + durationSec }]
            else seq1
          else seq1
        { current := none, startTime := st.startTime, count := 0, seq := seq2 }
      else { current := none, startTime := st.startTime, count := 0, seq := st.seq }
    | none => { current := none, startTime := st.startTime, count := 0, seq := st.seq }

/-- The handle-final-note block after the frame loop: flush the pending
note iff it lasted at least `min_frames` frames. -/
def finalFlush (tempo : ℚ) (mf : ℕ) (st : SegState) : List Note :=
  match st.current with
  | some c =>
    if mf ≤ st.count then st.seq ++ [flushedNote tempo c st.startTime st.count]
    else st.seq
  | none => st.seq

/-- The whole segmentation stage: fold the frame loop over the stream, then
flush the final pending note under the same `min_frames` rule. -/
def segmentFrames (tempo : ℚ) (frames : List Frame) : List Note :=
  finalFlush tempo (minFrames tempo)
    (frames.foldl (segStep tempo (minFrames tempo) (minNoteDurationSec tempo)) ⟨none, 0, 0, []⟩)

/-! ## JobRegistry, the background worker and the SSE stream
(advanced_api.py lines 36-38, 102-212, 257-307;
advanced_audio_analyzer.py lines 168-182)

`progress_store` is a dict guarded by `progress_lock`; it is modelled as an
association list keyed by job id.  Job status values are the literal
strings the code stores: `"running"`, `"completed"`, `"failed"`. -/

/-- One `progress_store[job_id]` dict.  The `debug`, `result` and `thread`
keys may be absent in the source; absence of `debug` is modelled as `""`
(the default used by every reader), and presence of `result`/`thread` as
booleans. -/
structure JobEntry where
  stage : ℕ
  message : String
  progress : ℚ
  totalStages : ℕ
  status : String
  filename : String
  debug : String
  hasResult : Bool
  hasThread : Bool
deriving DecidableEq

/-- The entry written on submission (advanced_api.py lines 103-111):
stage 0, message `'🔊 Starting analysis...'`, progress 0, total_stages 7,
status `'running'`, the uploaded filename. -/
def createEntry (filename : String) : JobEntry :=
  { stage := 0, message := "🔊 Starting analysis...", progress := 0, totalStages := 7,
    status := "running", filename := filename, debug := "", hasResult := false,
    hasThread := false }

/-- The progress store: job id to entry. -/
abbrev Store := List (String × JobEntry)

/-- Dict membership lookup (`progress_store[job_id]` / `job_id in
progress_store`). -/
def lookupStore (jobId : String) : Store → Option JobEntry
  | [] => none
  | kv :: s => if kv.1 = jobId then some kv.2 else lookupStore jobId s

/-- In-place mutation of the entry under `job_id`, leaving every other
entry untouched (a dict item assignment on an existing key). -/
def modifyEntry (jobId : String) (f : JobEntry → JobEntry) : Store → Store
  | [] => []
  | kv :: s => (if kv.1 = jobId then (kv.1, f kv.2) else kv) :: modifyEntry jobId f s

/-- `job_id in progress_store`. -/
def containsJob (jobId : String) (s : Store) : Bool := (lookupStore jobId s).isSome

/-- The arguments of one `update_progress` call: stage, message, optional
progress percentage, optional debug info (`None` = `none`). -/
structure Upd where
  stage : ℕ
  message : String
  progress : Option ℚ
  debug : Option String
deriving DecidableEq

/-- The mutation `update_progress` applies to an existing entry: stage and
message always, progress and debug only when the argument is not `None`.
The `status` key is never touched. -/
def applyUpdEntry (u : Upd) (e : JobEntry) : JobEntry :=
  { e with stage := u.stage, message := u.message,
           progress := u.progress.getD e.progress,
           debug := u.debug.getD e.debug }

/-- The guarded body of `update_progress`: mutate only if the job id is an
existing key, otherwise leave the store as it is. -/
def updateStore (jobId : String) (u : Upd) (s : Store) : Store :=
  if containsJob jobId s then modifyEntry jobId (applyUpdEntry u) s else s

/-- `AdvancedAudioAnalyzer.update_progress` (lines 168-182).  The guard
`if job_id and progress_store is not None and progress_lock is not None:`
is modelled with `Option`s: a `None` (or empty, hence falsy) job id, a
`None` store or a `None` lock skips the write entirely. -/
def update_progress (jobId : Option String) (store : Option Store) (hasLock : Bool)
    (u : Upd) : Option Store :=
  match jobId, store with
  | some j, some s => if j ≠ "" ∧ hasLock = true then some (updateStore j u s) else some s
  | _, _ => store

/-- Which way the `try` body of `run_analysis` ended: it ran to completion
(`success`), it raised and the `except Exception` handler ran
(`caught msg`), or it died without any terminal write reaching the store
(`fault` — e.g. a failure inside the handler itself). -/
inductive Branch where
  | success
  | caught (msg : String)
  | fault
deriving DecidableEq

/-- The completion write of `run_analysis` (lines 148-154): status
`'completed'`, message `'✅ Analysis complete!'`, progress 100, result
stored. -/
def completeWrite (jobId : String) : Store → Store :=
  modifyEntry jobId (fun e =>
    { e with status := "completed", message := "✅ Analysis complete!", progress := 100,
             hasResult := true })

/-- The `except` write of `run_analysis` (lines 167-171): status
`'failed'`, message `'❌ Analysis failed: ...'`, progress 100. -/
def failWrite (jobId msg : String) : Store → Store :=
  modifyEntry jobId (fun e =>
    { e with status := "failed", message := "❌ Analysis failed: " ++ msg, progress := 100 })

/-- The terminal write selected by the branch taken (`fault` writes
nothing). -/
def branchWrite (jobId : String) : Branch → Store → Store
  | Branch.success => completeWrite jobId
  | Branch.caught msg => failWrite jobId msg
  | Branch.fault => id

/-- The `finally` block of `run_analysis` (lines 178-189), one critical
section: if the job still exists and its status is `'running'`, force it to
`'failed'` with message `'❌ Analysis terminated unexpectedly'` and
progress 100; then delete the stored `thread` handle if present. -/
def finalizeStore (jobId : String) : Store → Store :=
  modifyEntry jobId (fun e =>
    let e1 :=
      if e.status = "running" then
        { e with status := "failed", message := "❌ Analysis terminated unexpectedly",
                 progress := 100 }
      else e
    { e1 with hasThread := false })

/-- `progress_store[job_id]['thread'] = thread` (line 209). -/
def setThread (jobId : String) : Store → Store :=
  modifyEntry jobId (fun e => { e with hasThread := true })

/-- The net effect of one `run_analysis` execution on the store: the entry
created on submission, the thread handle stored, the pipeline's progress
updates, the branch's terminal write, and the guaranteed finalizer. -/
def runFinal (jobId filename : String) (b : Branch) (us : List Upd) : Store :=
  finalizeStore jobId
    (branchWrite jobId b
      (us.foldl (fun s u => updateStore jobId u s)
        (setThread jobId [(jobId, createEntry filename)])))

/-- The store after each progress update, the starting state included. -/
def updStates (jobId : String) : List Upd → Store → List Store
  | [], s => [s]
  | u :: us, s => s :: updStates jobId us (updateStore jobId u s)

/-- All store states one `run_analysis` execution moves through, in order:
submission, thread stored, after each progress update, after the branch's
terminal write, after the finalizer. -/
def runTrace (jobId filename : String) (b : Branch) (us : List Upd) : List Store :=
  ([(jobId, createEntry filename)] ::
      updStates jobId us (setThread jobId [(jobId, createEntry filename)])) ++
    [branchWrite jobId b
        (us.foldl (fun s u => updateStore jobId u s)
          (setThread jobId [(jobId, createEntry filename)])),
      runFinal jobId filename b us]

/-- The stored status string of a job, if the job exists. -/
def statusOf (jobId : String) (s : Store) : Option String :=
  (lookupStore jobId s).map JobEntry.status

/-- One admissible status transition: stay unchanged, or leave `'running'`
for a terminal status. -/
def statusStep (a b : Option String) : Prop :=
  b = a ∨ (a = some "running" ∧ (b = some "completed" ∨ b = some "failed"))

/-- The snapshot dict `generate_progress`/`get_progress_json` build from an
entry (`{stage, message, progress, status, filename, debug,
total_stages}`). -/
structure Snapshot where
  stage : ℕ
  message : String
  progress : ℚ
  status : String
  filename : String
  debug : String
  totalStages : ℕ
deriving DecidableEq

/-- The `progress_data` projection of a raw entry. -/
def projEntry (e : JobEntry) : Snapshot :=
  { stage := e.stage, message := e.message, progress := e.progress, status := e.status,
    filename := e.filename, debug := e.debug, totalStages := e.totalStages }

/-- One server-sent event: the job-not-found error payload, or a snapshot
payload. -/
inductive SSEvent where
  | notFound
  | snapshot (s : Snapshot)
deriving DecidableEq

/-- `progress_data['status'] in ['completed', 'failed']`. -/
def isTerminalStatus (st : String) : Bool := st == "completed" || st == "failed"

/-- Whether an emitted event is a snapshot showing a terminal status. -/
def isTerminalEvent : SSEvent → Bool
  | SSEvent.notFound => false
  | SSEvent.snapshot s => isTerminalStatus s.status

/-- The generator loop of `get_progress_sse` (lines 269-296).  `env i` is
the job's store entry at the i-th poll (one poll per 0.5 s sleep tick);
the loop reads the entry under the lock, emits its snapshot, and — testing
the copied snapshot — on terminal status emits the same snapshot once more
and closes; an unknown job id yields one error event and closes.  `fuel`
bounds the unrolling of the unbounded `while True`; the boolean records
whether the stream closed within `fuel` iterations. -/
def generate_progress (env : ℕ → Option JobEntry) : ℕ → ℕ → List SSEvent × Bool
  | 0, _ => ([], false)
  | fuel + 1, i =>
    match env i with
    | none => ([SSEvent.notFound], true)
    | some e =>
      if isTerminalStatus e.status then
        ([SSEvent.snapshot (projEntry e), SSEvent.snapshot (projEntry e)], true)
      else
        let r := generate_progress env fuel (i + 1)
        (SSEvent.snapshot (projEntry e) :: r.1, r.2)

end MusicMaker

namespace MusicMaker

/-! ### Supporting lemmas for the quantizer -/

theorem foldl_min_mem (key : ℚ → ℚ) :
    ∀ (xs : List ℚ) (b : ℚ), xs.foldl (fun b a => if key a < key b then a else b) b ∈ b :: xs := by
  intro xs
  induction xs with
  | nil => intro b; simp
  | cons a xs ih =>
    intro b
    simp only [List.foldl_cons]
    by_cases hc : key a < key b
    · rw [if_pos hc]
      rcases List.mem_cons.mp (ih a) with h | h
      · simp [h]
      · simp [List.mem_cons.mpr (Or.inr h)]
    · rw [if_neg hc]
      rcases List.mem_cons.mp (ih b) with h | h
      · simp [h]
      · simp [List.mem_cons.mpr (Or.inr h)]

theorem listMinBy_mem (key : ℚ → ℚ) (x : ℚ) (xs : List ℚ) :
    listMinBy key (x :: xs) ∈ x :: xs :=
  foldl_min_mem key xs x

/-- The insertion order of the key table is already ascending, so the
source's `sorted(...)` is the identity on it. -/
theorem availableFrequencies_ascending : List.Pairwise (· < ·) availableFrequencies := by
  decide

theorem pentatonic_subset_available : ∀ p ∈ pentatonicFreqs, p ∈ availableFrequencies := by
  decide

theorem pentatonic_pos : ∀ p ∈ pentatonicFreqs, 0 < p := by decide

/-- Every pentatonic member is the (first) nearest alphabet member to
itself, so the second snapping step fixes pentatonic members. -/
theorem snap_available_fixes_pentatonic :
    ∀ p ∈ pentatonicFreqs, listMinBy (fun x => ratioDist x p) availableFrequencies = p := by
  decide

/-- `snap_to_pentatonic` fixes every pentatonic member. -/
theorem snap_fixes_pentatonic : ∀ p ∈ pentatonicFreqs, snap_to_pentatonic p = p := by
  decide

/-- For positive input, the quantizer's output is a pentatonic member. -/
theorem snap_mem_pentatonic (f : ℚ) (hf : 0 < f) :
    snap_to_pentatonic f ∈ pentatonicFreqs := by
  unfold snap_to_pentatonic
  rw [if_neg (not_le.mpr hf)]
  have hp : listMinBy (fun x => ratioDist x (max 20 (min f 8000))) pentatonicFreqs
      ∈ pentatonicFreqs := by
    have := listMinBy_mem (fun x => ratioDist x (max 20 (min f 8000)))
      (13081/100)
      [14683/100, 16481/100, 196, 220, 26163/100, 29366/100, 32963/100, 392, 440,
       52325/100, 58733/100, 65925/100]
    simpa [pentatonicFreqs] using this
  rw [snap_available_fixes_pentatonic _ hp]
  exact hp

/-! ### Claim theorems: quantizer -/

/-- C2: the quantizer is idempotent — for every valid (positive) frequency
`f`, `snap_to_pentatonic (snap_to_pentatonic f) = snap_to_pentatonic f`,
with the nearest-by-semitone searches breaking ties by first occurrence in
ascending-frequency order. -/
theorem quantize_idempotent (f : ℚ) (hf : 0 < f) :
    snap_to_pentatonic (snap_to_pentatonic f) = snap_to_pentatonic f :=
  snap_fixes_pentatonic _ (snap_mem_pentatonic f hf)

theorem quantize_idempotent_witness :
    0 < (441 : ℚ) ∧
      snap_to_pentatonic (snap_to_pentatonic 441) = snap_to_pentatonic 441 :=
  ⟨by norm_num, quantize_idempotent 441 (by norm_num)⟩

/-- C6: the quantizer returns 0 for every non-positive input (the only
invalid inputs representable in `ℚ`; float NaN/infinity have no rational
counterpart), and for every positive input it returns a member of the
24-entry `available_frequencies` alphabet. -/
theorem quantize_total_and_member :
    (∀ f : ℚ, f ≤ 0 → snap_to_pentatonic f = 0) ∧
    (∀ f : ℚ, 0 < f → snap_to_pentatonic f ∈ availableFrequencies) := by
  constructor
  · intro f hf
    unfold snap_to_pentatonic
    rw [if_pos hf]
  · intro f hf
    exact pentatonic_subset_available _ (snap_mem_pentatonic f hf)

theorem quantize_total_and_member_witness :
    ((-5 : ℚ) ≤ 0 ∧ snap_to_pentatonic (-5) = 0) ∧
      (0 < (441 : ℚ) ∧ snap_to_pentatonic 441 ∈ availableFrequencies) :=
  ⟨⟨by norm_num, quantize_total_and_member.1 (-5) (by norm_num)⟩,
   ⟨by norm_num, quantize_total_and_member.2 441 (by norm_num)⟩⟩

/-- C8: `frequency_to_key` is an exact-match lookup with `' '` (the silence
key) as default: every positive frequency that is not literally a key of the
table is mapped to `' '`, never to a nearest entry. -/
theorem frequency_to_key_default_space (f : ℚ) (hpos : 0 < f)
    (hnot : ∀ kv ∈ freqToKeyMap, kv.1 ≠ f) : frequency_to_key f = ' ' := by
  unfold frequency_to_key
  rw [if_neg (ne_of_gt hpos)]
  have hfind : freqToKeyMap.find? (fun kv => decide (kv.1 = f)) = none := by
    rw [List.find?_eq_none]
    intro kv hkv
    simpa using hnot kv hkv
  rw [hfind]
  rfl

theorem frequency_to_key_default_space_witness :
    0 < (4401/10 : ℚ) ∧ frequency_to_key (4401/10) = ' ' :=
  ⟨by norm_num, frequency_to_key_default_space (4401/10) (by norm_num) (by decide)⟩

/-! ### Supporting lemmas for the merge pass -/

/-- The merge condition only inspects key, frequency and start time of the
right-hand note, never its duration. -/
theorem mergeableB_congr (th : ℚ) (c a b : Note) (hk : a.key = b.key)
    (hf : a.frequency = b.frequency) (hs : a.start_time = b.start_time) :
    mergeableB th c a = mergeableB th c b := by
  simp [mergeableB, hk, hf, hs]

/-- `mergeLoop` returns a nonempty list whose head agrees with the incoming
`current` note on key, frequency and start time (merging only rewrites the
duration of the accumulated note). -/
theorem mergeLoop_head (th : ℚ) :
    ∀ (xs : List Note) (c : Note), ∃ h t, mergeLoop th c xs = h :: t ∧
      h.key = c.key ∧ h.frequency = c.frequency ∧ h.start_time = c.start_time := by
  intro xs
  induction xs with
  | nil =>
    intro c
    exact ⟨c, [], rfl, rfl, rfl, rfl⟩
  | cons n ns ih =>
    intro c
    by_cases hm : mergeableB th c n = true
    · obtain ⟨h, t, he, hk, hf, hs⟩ :=
        ih { c with duration :=
              c.duration + n.duration + (n.start_time - (c.start_time + c.duration)) }
      refine ⟨h, t, ?_, hk, hf, hs⟩
      simpa [mergeLoop, hm] using he
    · exact ⟨c, mergeLoop th n ns, by simp [mergeLoop, hm], rfl, rfl, rfl⟩

/-- Adjacent notes in the output of `mergeLoop` are never mergeable: when a
note is emitted it is because the merge condition against its successor's
key/frequency/start just failed, and those fields survive in the output. -/
theorem mergeLoop_chain (th : ℚ) :
    ∀ (xs : List Note) (c : Note),
      List.Chain' (fun a b => mergeableB th a b = false) (mergeLoop th c xs) := by
  intro xs
  induction xs with
  | nil => intro c; simp [mergeLoop]
  | cons n ns ih =>
    intro c
    by_cases hm : mergeableB th c n = true
    · simpa [mergeLoop, hm] using
        ih { c with duration :=
              c.duration + n.duration + (n.start_time - (c.start_time + c.duration)) }
    · obtain ⟨h, t, he, hk, hf, hs⟩ := mergeLoop_head th ns n
      have hfalse : mergeableB th c n = false := by simpa using hm
      simp only [mergeLoop, hm, if_neg, ite_false, Bool.false_eq_true]
      rw [List.chain'_cons']
      constructor
      · intro b hb
        rw [he] at hb
        simp only [List.head?_cons, Option.mem_def, Option.some.injEq] at hb
        rw [← hb, mergeableB_congr th c h n hk hf hs]
        exact hfalse
      · exact ih n

/-- On an input whose adjacent pairs all fail the merge condition,
`mergeLoop` is the identity scan. -/
theorem mergeLoop_of_chain (th : ℚ) :
    ∀ (xs : List Note) (c : Note),
      List.Chain' (fun a b => mergeableB th a b = false) (c :: xs) →
        mergeLoop th c xs = c :: xs := by
  intro xs
  induction xs with
  | nil => intro c _; rfl
  | cons n ns ih =>
    intro c h
    rw [List.chain'_cons] at h
    obtain ⟨hcn, hrest⟩ := h
    simp [mergeLoop, hcn, ih n hrest]

/-! ### Claim theorems: merge pass -/

/-- C7: the merge pass is idempotent — rescanning its own output fuses
nothing further, because every adjacent pair of the output fails the merge
condition (identical key, identical frequency, gap at most
`threshold_frames * 0.008`). -/
theorem merge_idempotent (th : ℚ) (S : List Note) :
    merge_consecutive_notes th (merge_consecutive_notes th S) =
      merge_consecutive_notes th S := by
  cases S with
  | nil => rfl
  | cons x xs =>
    obtain ⟨h, t, he, _, _, _⟩ := mergeLoop_head th xs x
    have hchain := mergeLoop_chain th xs x
    have h1 : merge_consecutive_notes th (x :: xs) = mergeLoop th x xs := rfl
    rw [h1, he]
    have h2 : merge_consecutive_notes th (h :: t) = mergeLoop th h t := rfl
    rw [h2]
    exact mergeLoop_of_chain th t h (he ▸ hchain)

/-- `mergeLoop` emits at most one note per input note plus the pending one. -/
theorem mergeLoop_length (th : ℚ) :
    ∀ (xs : List Note) (c : Note), (mergeLoop th c xs).length ≤ xs.length + 1 := by
  intro xs
  induction xs with
  | nil => intro c; simp [mergeLoop]
  | cons n ns ih =>
    intro c
    by_cases hm : mergeableB th c n = true
    · have h := ih { c with duration :=
          c.duration + n.duration + (n.start_time - (c.start_time + c.duration)) }
      simp only [mergeLoop, hm, if_true, List.length_cons]
      omega
    · have h := ih n
      simp only [mergeLoop, hm, if_neg, ite_false, Bool.false_eq_true, List.length_cons]
      omega

/-- C10: merging the empty sequence gives the empty sequence; merging a
non-empty sequence gives a non-empty sequence, no longer than the input,
whose first note keeps the key, frequency and start time of the input's
first note. -/
theorem merge_preserves_head_and_length (th : ℚ) :
    merge_consecutive_notes th ([] : List Note) = [] ∧
    ∀ (x : Note) (xs : List Note), ∃ h t,
      merge_consecutive_notes th (x :: xs) = h :: t ∧
      (h :: t).length ≤ (x :: xs).length ∧
      h.key = x.key ∧ h.frequency = x.frequency ∧ h.start_time = x.start_time := by
  refine ⟨rfl, ?_⟩
  intro x xs
  obtain ⟨h, t, he, hk, hf, hs⟩ := mergeLoop_head th xs x
  refine ⟨h, t, he, ?_, hk, hf, hs⟩
  have hlen := mergeLoop_length th xs x
  rw [he] at hlen
  simpa using hlen

/-! ### Supporting lemmas for the segmenter -/

theorem snap_pos (f : ℚ) (hf : 0 < f) : 0 < snap_to_pentatonic f :=
  pentatonic_pos _ (snap_mem_pentatonic f hf)

/-- A note is always within half a semitone of itself. -/
theorem isSameNoteB_self (q : ℚ) (hq : 0 < q) : isSameNoteB q q = true := by
  unfold isSameNoteB
  rw [div_self (ne_of_gt hq)]
  norm_num

/-- Every pentatonic member has an exact entry in the key table, and
`frequency_to_key` returns that entry's symbol. -/
theorem pentatonic_has_symbol :
    ∀ p ∈ pentatonicFreqs, ∃ kv ∈ freqToKeyMap, kv.1 = p ∧ frequency_to_key p = kv.2 := by
  decide

/-- Accepted frames carrying the already-pending quantized frequency only
increment the frame counter. -/
theorem segStep_accept_same (tempo : ℚ) (mf : ℕ) (mSec : ℚ) (f q : ℚ)
    (hq : snap_to_pentatonic f = q) (hqpos : 0 < q) (hf : 0 < f) :
    ∀ (frames : List Frame) (t0 : ℚ) (n : ℕ),
      (∀ fr ∈ frames, fr.freq = f ∧ confidenceThreshold < fr.conf) →
      frames.foldl (segStep tempo mf mSec) ⟨some q, t0, n, []⟩ =
        ⟨some q, t0, n + frames.length, []⟩ := by
  intro frames
  induction frames with
  | nil => intro t0 n _; simp
  | cons fr rest ih =>
    intro t0 n hall
    have hfr := hall fr (List.mem_cons_self fr rest)
    have hstep : segStep tempo mf mSec ⟨some q, t0, n, []⟩ fr = ⟨some q, t0, n + 1, []⟩ := by
      simp [segStep, hfr.1, hfr.2, hf, hq, hqpos, isSameNoteB_self q hqpos]
    rw [List.foldl_cons, hstep,
      ih t0 (n + 1) (fun g hg => hall g (List.mem_cons_of_mem fr hg))]
    simp only [List.length_cons, SegState.mk.injEq, and_true, true_and]
    omega

/-! ### Claim theorems: segmentation -/

/-- C3: a stream of `N` frames all carrying the same positive frequency `f`
with confidence above the threshold, with `N` at least the minimum-frame
floor, segments into exactly one note: its duration is
`round(N * hopDuration / 60 * tempo * 4) / 4` beats (`hopDuration =
hop_length / sr`), its start time is the first frame's time, and its key is
the alphabet symbol of the quantized frequency (which has an exact entry in
the key table). -/
theorem segment_constant_tone (tempo f : ℚ) (fr0 : Frame) (rest : List Frame)
    (hf : 0 < f)
    (hall : ∀ fr ∈ fr0 :: rest, fr.freq = f ∧ confidenceThreshold < fr.conf)
    (hN : minFrames tempo ≤ (fr0 :: rest).length) :
    segmentFrames tempo (fr0 :: rest) =
      [{ key := frequency_to_key (snap_to_pentatonic f),
         frequency := snap_to_pentatonic f,
         duration :=
           (pyRound (((fr0 :: rest).length : ℚ) * (hopLength / sampleRate) / 60 * tempo * 4) : ℚ) / 4,
         start_time := fr0.time }] ∧
    ∃ kv ∈ freqToKeyMap, kv.1 = snap_to_pentatonic f ∧
      frequency_to_key (snap_to_pentatonic f) = kv.2 := by
  have hqpos : 0 < snap_to_pentatonic f := snap_pos f hf
  constructor
  · have hfr0 := hall fr0 (List.mem_cons_self fr0 rest)
    have h0 : segStep tempo (minFrames tempo) (minNoteDurationSec tempo) ⟨none, 0, 0, []⟩ fr0 =
        ⟨some (snap_to_pentatonic f), fr0.time, 1, []⟩ := by
      simp [segStep, hfr0.1, hfr0.2, hf]
    have hfold : (fr0 :: rest).foldl
        (segStep tempo (minFrames tempo) (minNoteDurationSec tempo)) ⟨none, 0, 0, []⟩ =
        ⟨some (snap_to_pentatonic f), fr0.time, 1 + rest.length, []⟩ := by
      rw [List.foldl_cons, h0]
      exact segStep_accept_same tempo (minFrames tempo) (minNoteDurationSec tempo) f
        (snap_to_pentatonic f) rfl hqpos hf rest fr0.time 1
        (fun g hg => hall g (List.mem_cons_of_mem fr0 hg))
    have hcnt : minFrames tempo ≤ 1 + rest.length := by
      simpa [List.length_cons, Nat.add_comm] using hN
    unfold segmentFrames
    rw [hfold]
    simp only [finalFlush, hcnt, if_pos, List.nil_append, flushedNote]
    have harg : ((1 + rest.length : ℕ) : ℚ) * hopLength / sampleRate * tempo / 60 * 4 =
        (((fr0 :: rest).length : ℕ) : ℚ) * (hopLength / sampleRate) / 60 * tempo * 4 := by
      simp only [List.length_cons]
      push_cast
      ring
    rw [harg]
  · exact pentatonic_has_symbol _ (snap_mem_pentatonic f hf)

theorem segment_constant_tone_witness :
    0 < (440 : ℚ) ∧
    (∀ fr ∈ [Frame.mk 0 440 1, Frame.mk (1/100) 440 1],
        fr.freq = 440 ∧ confidenceThreshold < fr.conf) ∧
    minFrames 2000 ≤ ([Frame.mk 0 440 1, Frame.mk (1/100) 440 1] : List Frame).length ∧
    segmentFrames 2000 [Frame.mk 0 440 1, Frame.mk (1/100) 440 1] =
      [{ key := 'v', frequency := 440, duration := 1/4, start_time := 0 }] := by
  refine ⟨by norm_num, by decide, by decide, ?_⟩
  have h := (segment_constant_tone 2000 440 (Frame.mk 0 440 1) [Frame.mk (1/100) 440 1]
      (by norm_num) (by decide) (by decide)).1
  rw [h]
  decide

/-! ### Supporting lemmas for the job store -/

/-- Modifying a key rewrites exactly that key's entry. -/
theorem lookup_modifyEntry_self (jobId : String) (f : JobEntry → JobEntry) :
    ∀ s : Store, lookupStore jobId (modifyEntry jobId f s) = (lookupStore jobId s).map f := by
  intro s
  induction s with
  | nil => rfl
  | cons kv s ih =>
    by_cases h : kv.1 = jobId
    · simp [lookupStore, modifyEntry, h]
    · simp [lookupStore, modifyEntry, h, ih]

/-- Modifying one key leaves every other key's entry unchanged. -/
theorem lookup_modifyEntry_other (jobId k : String) (hk : k ≠ jobId) (f : JobEntry → JobEntry) :
    ∀ s : Store, lookupStore k (modifyEntry jobId f s) = lookupStore k s := by
  have hjk : jobId ≠ k := fun hc => hk hc.symm
  intro s
  induction s with
  | nil => rfl
  | cons kv s ih =>
    by_cases h : kv.1 = jobId
    · simp [lookupStore, modifyEntry, h, hjk, ih]
    · simp [lookupStore, modifyEntry, h, hk, ih]

/-- Modification never adds or removes keys. -/
theorem keys_modifyEntry (jobId : String) (f : JobEntry → JobEntry) :
    ∀ s : Store, (modifyEntry jobId f s).map Prod.fst = s.map Prod.fst := by
  intro s
  induction s with
  | nil => rfl
  | cons kv s ih =>
    by_cases h : kv.1 = jobId
    · simp [modifyEntry, h, ih]
    · simp [modifyEntry, h, ih]

/-- `update_progress` never touches the `status` field. -/
theorem statusOf_updateStore (jobId : String) (u : Upd) (s : Store) :
    statusOf jobId (updateStore jobId u s) = statusOf jobId s := by
  unfold updateStore
  by_cases h : containsJob jobId s = true
  · rw [if_pos h]
    unfold statusOf
    rw [lookup_modifyEntry_self]
    cases lookupStore jobId s with
    | none => rfl
    | some e => rfl
  · rw [if_neg h]

/-- The status survives any sequence of progress updates unchanged. -/
theorem statusOf_foldUpd (jobId : String) :
    ∀ (us : List Upd) (s : Store),
      statusOf jobId (us.foldl (fun s u => updateStore jobId u s) s) = statusOf jobId s := by
  intro us
  induction us with
  | nil => intro s; rfl
  | cons u us ih =>
    intro s
    rw [List.foldl_cons, ih, statusOf_updateStore]

/-! ### Claim theorems: background worker finalization -/

/-- C1: whatever branch `run_analysis` takes — success, caught exception,
or a fault that reaches no terminal write — the finalizer leaves the job's
entry in a terminal status with the thread handle removed; and whenever the
entry is still `'running'` when the finalizer runs, it is forced to
`'failed'` with message `'❌ Analysis terminated unexpectedly'`.  No
execution leaves the job `'running'`. -/
theorem run_analysis_leaves_terminal (jobId filename : String) (b : Branch) (us : List Upd) :
    (∃ e, lookupStore jobId (runFinal jobId filename b us) = some e ∧
        (e.status = "completed" ∨ e.status = "failed") ∧ e.hasThread = false) ∧
    (∀ (s : Store) (e : JobEntry), lookupStore jobId s = some e → e.status = "running" →
        lookupStore jobId (finalizeStore jobId s) =
          some { e with
                 status := "failed", message := "❌ Analysis terminated unexpectedly",
                 progress := 100, hasThread := false }) := by
  constructor
  · set sU := us.foldl (fun s u => updateStore jobId u s)
        (setThread jobId [(jobId, createEntry filename)]) with hsU
    have h1 : lookupStore jobId (setThread jobId [(jobId, createEntry filename)]) =
        some { createEntry filename with hasThread := true } := by
      unfold setThread
      rw [lookup_modifyEntry_self]
      simp [lookupStore]
    have hstU : statusOf jobId sU = some "running" := by
      rw [hsU, statusOf_foldUpd]
      unfold statusOf
      rw [h1]
      rfl
    obtain ⟨e2, he2, hst2⟩ : ∃ e2, lookupStore jobId sU = some e2 ∧ e2.status = "running" := by
      unfold statusOf at hstU
      cases hlk : lookupStore jobId sU with
      | none => rw [hlk] at hstU; exact absurd hstU (by simp)
      | some e =>
        rw [hlk] at hstU
        exact ⟨e, rfl, by simpa using hstU⟩
    cases b with
    | success =>
      refine ⟨{ e2 with
                status := "completed", message := "✅ Analysis complete!",
                progress := 100, hasResult := true, hasThread := false }, ?_, Or.inl rfl, rfl⟩
      unfold runFinal branchWrite completeWrite finalizeStore
      rw [lookup_modifyEntry_self, lookup_modifyEntry_self, ← hsU, he2]
      rfl
    | caught m =>
      refine ⟨{ e2 with
                status := "failed", message := "❌ Analysis failed: " ++ m,
                progress := 100, hasThread := false }, ?_, Or.inr rfl, rfl⟩
      unfold runFinal branchWrite failWrite finalizeStore
      rw [lookup_modifyEntry_self, lookup_modifyEntry_self, ← hsU, he2]
      rfl
    | fault =>
      refine ⟨{ e2 with
                status := "failed", message := "❌ Analysis terminated unexpectedly",
                progress := 100, hasThread := false }, ?_, Or.inr rfl, rfl⟩
      unfold runFinal finalizeStore
      simp only [branchWrite, id_eq]
      rw [lookup_modifyEntry_self, ← hsU, he2]
      simp [hst2]
  · intro s e he hrun
    unfold finalizeStore
    rw [lookup_modifyEntry_self, he]
    simp [hrun]

theorem run_analysis_leaves_terminal_witness :
    lookupStore "job" (finalizeStore "job" [("job", createEntry "a.wav")]) =
      some { createEntry "a.wav" with
             status := "failed", message := "❌ Analysis terminated unexpectedly",
             progress := 100, hasThread := false } :=
  (run_analysis_leaves_terminal "job" "a.wav" Branch.fault []).2
    [("job", createEntry "a.wav")] (createEntry "a.wav") (by decide) rfl

/-! ### Claim theorems: job status lifecycle -/

/-- C4 counterexample: the claim says a job is created with status
`Starting`, but the entry written into the progress store on submission
carries status `'running'` (the literal `'starting'` only appears in the
HTTP response body, never in the store). -/
theorem job_created_running_counterexample :
    (createEntry "song.wav").status = "running" ∧
      (createEntry "song.wav").status ≠ "starting" :=
  ⟨rfl, by decide⟩

/-- After the thread handle is stored and any number of progress updates
ran, the job still exists and its status is still `'running'`. -/
theorem run_pending_running (jobId filename : String) (us : List Upd) :
    ∃ e2, lookupStore jobId
        (us.foldl (fun s u => updateStore jobId u s)
          (setThread jobId [(jobId, createEntry filename)])) = some e2 ∧
      e2.status = "running" := by
  have h1 : lookupStore jobId (setThread jobId [(jobId, createEntry filename)]) =
      some { createEntry filename with hasThread := true } := by
    unfold setThread
    rw [lookup_modifyEntry_self]
    simp [lookupStore]
  have hstU : statusOf jobId (us.foldl (fun s u => updateStore jobId u s)
      (setThread jobId [(jobId, createEntry filename)])) = some "running" := by
    rw [statusOf_foldUpd]
    unfold statusOf
    rw [h1]
    rfl
  unfold statusOf at hstU
  cases hlk : lookupStore jobId (us.foldl (fun s u => updateStore jobId u s)
      (setThread jobId [(jobId, createEntry filename)])) with
  | none => rw [hlk] at hstU; exact absurd hstU (by simp)
  | some e => rw [hlk] at hstU; exact ⟨e, rfl, by simpa using hstU⟩

/-- The statuses along the progress updates are constant. -/
theorem updStates_statuses (jobId : String) :
    ∀ (us : List Upd) (s : Store),
      (updStates jobId us s).map (statusOf jobId) =
        List.replicate (us.length + 1) (statusOf jobId s) := by
  intro us
  induction us with
  | nil => intro s; rfl
  | cons u us ih =>
    intro s
    simp only [updStates, List.map_cons, ih, statusOf_updateStore, List.length_cons,
      List.replicate_succ]

/-- The status view of a whole `run_analysis` trace: `'running'` from
submission through every progress update, then the branch write's status,
then the finalizer's status. -/
theorem runTrace_statuses (jobId filename : String) (b : Branch) (us : List Upd) :
    (runTrace jobId filename b us).map (statusOf jobId) =
      List.replicate (us.length + 1 + 1) (some "running") ++
        [statusOf jobId (branchWrite jobId b
            (us.foldl (fun s u => updateStore jobId u s)
              (setThread jobId [(jobId, createEntry filename)]))),
         statusOf jobId (runFinal jobId filename b us)] := by
  have h1 : statusOf jobId (setThread jobId [(jobId, createEntry filename)]) =
      some "running" := by
    unfold setThread statusOf
    rw [lookup_modifyEntry_self]
    simp [lookupStore]
    rfl
  have h0 : statusOf jobId ([(jobId, createEntry filename)] : Store) = some "running" := by
    simp [statusOf, lookupStore]
    rfl
  unfold runTrace
  rw [List.cons_append, List.map_cons, List.map_append, updStates_statuses, h1, h0]
  simp [List.replicate_succ, runFinal]

/-- A chain lemma for a constant prefix followed by two final elements. -/
theorem chain'_replicate_append_two {α : Type} (R : α → α → Prop) (a x y : α)
    (ha : R a a) (hax : R a x) (hxy : R x y) :
    ∀ n : ℕ, List.Chain' R (List.replicate (n + 1) a ++ [x, y]) := by
  intro n
  induction n with
  | zero => simp [List.chain'_cons, hax, hxy]
  | succ n ih =>
    rw [List.replicate_succ, List.cons_append, List.chain'_cons']
    refine ⟨?_, ih⟩
    intro c hc
    rw [List.replicate_succ, List.cons_append, List.head?_cons] at hc
    simp only [Option.mem_def, Option.some.injEq] at hc
    rw [← hc]
    exact ha

/-- C4 (amended): the job's stored status starts as `'running'` on
submission and, along every state of a `run_analysis` execution, changes
only from `'running'` to a terminal `'completed'`/`'failed'`; a terminal
status never changes again. -/
theorem job_status_lifecycle (jobId filename : String) (b : Branch) (us : List Upd) :
    ((runTrace jobId filename b us).map (statusOf jobId)).head? = some (some "running") ∧
    List.Chain' statusStep ((runTrace jobId filename b us).map (statusOf jobId)) := by
  obtain ⟨e2, he2, hst2⟩ := run_pending_running jobId filename us
  have htr := runTrace_statuses jobId filename b us
  rw [htr]
  have hA : statusStep (some "running") (some "running") := Or.inl rfl
  constructor
  · rw [List.replicate_succ, List.cons_append, List.head?_cons]
  · cases b with
    | success =>
      have hsb : statusOf jobId (branchWrite jobId Branch.success
          (us.foldl (fun s u => updateStore jobId u s)
            (setThread jobId [(jobId, createEntry filename)]))) = some "completed" := by
        simp only [branchWrite]
        unfold completeWrite statusOf
        rw [lookup_modifyEntry_self, he2]
        rfl
      have hsf : statusOf jobId (runFinal jobId filename Branch.success us) =
          some "completed" := by
        unfold runFinal finalizeStore statusOf
        simp only [branchWrite]
        unfold completeWrite
        rw [lookup_modifyEntry_self, lookup_modifyEntry_self, he2]
        rfl
      rw [hsb, hsf]
      exact chain'_replicate_append_two statusStep _ _ _ hA
        (Or.inr ⟨rfl, Or.inl rfl⟩) (Or.inl rfl) (us.length + 1)
    | caught m =>
      have hsb : statusOf jobId (branchWrite jobId (Branch.caught m)
          (us.foldl (fun s u => updateStore jobId u s)
            (setThread jobId [(jobId, createEntry filename)]))) = some "failed" := by
        simp only [branchWrite]
        unfold failWrite statusOf
        rw [lookup_modifyEntry_self, he2]
        rfl
      have hsf : statusOf jobId (runFinal jobId filename (Branch.caught m) us) =
          some "failed" := by
        unfold runFinal finalizeStore statusOf
        simp only [branchWrite]
        unfold failWrite
        rw [lookup_modifyEntry_self, lookup_modifyEntry_self, he2]
        rfl
      rw [hsb, hsf]
      exact chain'_replicate_append_two statusStep _ _ _ hA
        (Or.inr ⟨rfl, Or.inr rfl⟩) (Or.inl rfl) (us.length + 1)
    | fault =>
      have hsb : statusOf jobId (branchWrite jobId Branch.fault
          (us.foldl (fun s u => updateStore jobId u s)
            (setThread jobId [(jobId, createEntry filename)]))) = some "running" := by
        simp only [branchWrite, id_eq]
        unfold statusOf
        rw [he2]
        simp [hst2]
      have hsf : statusOf jobId (runFinal jobId filename Branch.fault us) =
          some "failed" := by
        unfold runFinal finalizeStore statusOf
        simp only [branchWrite, id_eq]
        rw [lookup_modifyEntry_self, he2]
        simp [hst2]
      rw [hsb, hsf]
      exact chain'_replicate_append_two statusStep _ _ _ hA
        (Or.inl rfl) (Or.inr ⟨rfl, Or.inr rfl⟩) (us.length + 1)

/-! ### Claim theorems: update_progress frame conditions -/

/-- C9: `update_progress` is a no-op whenever the job id is `None` (or the
falsy empty string), the store is `None`, the lock is `None`, or the job id
is not an existing key; it never creates an entry (the key set is
preserved) and only ever mutates the entry under the given job id. -/
theorem update_progress_frame :
    (∀ (st : Option Store) (hl : Bool) (u : Upd), update_progress none st hl u = st) ∧
    (∀ (j : String) (hl : Bool) (u : Upd), update_progress (some j) none hl u = none) ∧
    (∀ (j : String) (s : Store) (u : Upd), update_progress (some j) (some s) false u = some s) ∧
    (∀ (s : Store) (hl : Bool) (u : Upd), update_progress (some "") (some s) hl u = some s) ∧
    (∀ (j : String) (s : Store) (hl : Bool) (u : Upd), containsJob j s = false →
        update_progress (some j) (some s) hl u = some s) ∧
    (∀ (j k : String) (s : Store) (u : Upd), k ≠ j →
        lookupStore k (updateStore j u s) = lookupStore k s) ∧
    (∀ (j : String) (s : Store) (u : Upd),
        (updateStore j u s).map Prod.fst = s.map Prod.fst) := by
  refine ⟨fun st hl u => rfl, fun j hl u => rfl, ?_, ?_, ?_, ?_, ?_⟩
  · intro j s u
    simp [update_progress]
  · intro s hl u
    simp [update_progress]
  · intro j s hl u hc
    simp only [update_progress, updateStore, hc]
    simp
  · intro j k s u hk
    unfold updateStore
    by_cases hc : containsJob j s = true
    · rw [if_pos hc]
      exact lookup_modifyEntry_other j k hk _ s
    · rw [if_neg hc]
  · intro j s u
    unfold updateStore
    by_cases hc : containsJob j s = true
    · rw [if_pos hc]
      exact keys_modifyEntry j _ s
    · rw [if_neg hc]

theorem update_progress_frame_witness :
    (update_progress (some "missing") (some [("job", createEntry "f.wav")]) true
        (Upd.mk 3 "msg" none none) = some [("job", createEntry "f.wav")]) ∧
    (lookupStore "job" (updateStore "other" (Upd.mk 3 "msg" none none)
        [("job", createEntry "f.wav")]) =
      lookupStore "job" [("job", createEntry "f.wav")]) ∧
    (update_progress none (some [("job", createEntry "f.wav")]) true
        (Upd.mk 3 "msg" none none) = some [("job", createEntry "f.wav")]) :=
  ⟨update_progress_frame.2.2.2.2.1 "missing" [("job", createEntry "f.wav")] true
      (Upd.mk 3 "msg" none none) (by decide),
   update_progress_frame.2.2.2.2.2.1 "other" "job" [("job", createEntry "f.wav")]
      (Upd.mk 3 "msg" none none) (by decide),
   update_progress_frame.1 (some [("job", createEntry "f.wav")]) true
      (Upd.mk 3 "msg" none none)⟩

/-! ### Claim theorems: progress stream -/

/-- Unrolling the generator: while the polled entries are non-terminal it
emits one snapshot per poll; at the first terminal poll it emits that
snapshot twice and closes. -/
theorem generate_progress_run (env : ℕ → Option JobEntry) :
    ∀ (k i fuel : ℕ) (es : ℕ → JobEntry),
      (∀ d, d ≤ k → env (i + d) = some (es d)) →
      (∀ d, d < k → isTerminalStatus (es d).status = false) →
      isTerminalStatus (es k).status = true →
      k < fuel →
      generate_progress env fuel i =
        ((List.range k).map (fun d => SSEvent.snapshot (projEntry (es d))) ++
          [SSEvent.snapshot (projEntry (es k)), SSEvent.snapshot (projEntry (es k))], true) := by
  intro k
  induction k with
  | zero =>
    intro i fuel es henv _ hterm hfuel
    obtain ⟨m, rfl⟩ : ∃ m, fuel = m + 1 := ⟨fuel - 1, by omega⟩
    have h0 : env i = some (es 0) := by simpa using henv 0 (Nat.le_refl 0)
    simp [generate_progress, h0, hterm]
  | succ k ih =>
    intro i fuel es henv hpre hterm hfuel
    obtain ⟨m, rfl⟩ : ∃ m, fuel = m + 1 := ⟨fuel - 1, by omega⟩
    have h0 : env i = some (es 0) := by simpa using henv 0 (Nat.zero_le _)
    have hnt : isTerminalStatus (es 0).status = false := hpre 0 (Nat.succ_pos k)
    have hrec := ih (i + 1) m (fun d => es (d + 1))
      (fun d hd => by
        have h := henv (d + 1) (Nat.succ_le_succ hd)
        rwa [show i + (d + 1) = i + 1 + d by omega] at h)
      (fun d hd => hpre (d + 1) (by omega))
      hterm
      (by omega)
    simp only [generate_progress, h0, hnt, Bool.false_eq_true, if_neg, ite_false, hrec]
    simp [List.range_succ_eq_map, List.map_map, Function.comp]

/-- C5: for a known job, the stream emits one snapshot per poll while the
job is non-terminal; at the first poll showing a terminal status it emits
that snapshot and exactly one further (identical) terminal snapshot, then
closes — so exactly two terminal-status snapshots are delivered in total,
and the stream ends. -/
theorem progress_stream_one_final_snapshot (env : ℕ → Option JobEntry) (es : ℕ → JobEntry)
    (k fuel : ℕ)
    (henv : ∀ d, d ≤ k → env d = some (es d))
    (hpre : ∀ d, d < k → isTerminalStatus (es d).status = false)
    (hterm : isTerminalStatus (es k).status = true)
    (hfuel : k < fuel) :
    generate_progress env fuel 0 =
      ((List.range k).map (fun d => SSEvent.snapshot (projEntry (es d))) ++
        [SSEvent.snapshot (projEntry (es k)), SSEvent.snapshot (projEntry (es k))], true) ∧
    ((generate_progress env fuel 0).1.filter isTerminalEvent).length = 2 := by
  have h := generate_progress_run env k 0 fuel es (fun d hd => by simpa using henv d hd)
    hpre hterm hfuel
  refine ⟨h, ?_⟩
  rw [h]
  simp only [List.filter_append]
  have hnil : ((List.range k).map
      (fun d => SSEvent.snapshot (projEntry (es d)))).filter isTerminalEvent = [] := by
    rw [List.filter_eq_nil_iff]
    intro ev hev
    obtain ⟨d, hd, rfl⟩ := List.mem_map.mp hev
    have hdk : d < k := List.mem_range.mp hd
    simp [isTerminalEvent, projEntry, hpre d hdk]
  rw [hnil]
  simp [isTerminalEvent, projEntry, hterm]

theorem progress_stream_one_final_snapshot_witness :
    generate_progress
        (fun i => some (if i = 0 then createEntry "a.wav"
          else { createEntry "a.wav" with status := "completed" })) 3 0 =
      ([SSEvent.snapshot (projEntry (createEntry "a.wav")),
        SSEvent.snapshot (projEntry { createEntry "a.wav" with status := "completed" }),
        SSEvent.snapshot (projEntry { createEntry "a.wav" with status := "completed" })],
       true) := by
  have h := (progress_stream_one_final_snapshot
      (fun i => some (if i = 0 then createEntry "a.wav"
        else { createEntry "a.wav" with status := "completed" }))
      (fun i => if i = 0 then createEntry "a.wav"
        else { createEntry "a.wav" with status := "completed" })
      1 3
      (fun d _ => rfl)
      (fun d hd => by
        have hd0 : d = 0 := by omega
        subst hd0
        decide)
      (by decide)
      (by omega)).1
  rw [h]
  decide
